import Mathlib

/-!
Verification of the monochora GIF-to-ASCII converter (Rust).

This file is a shallow embedding of the parts of the program that the
claims C1..C10 are about, together with theorems settling each claim.

Modelling conventions:
* Rust `f32` / `f64` values are modelled by unnormalized fractions
  (`Frac`, a pair of an integer numerator and denominator).  All the float
  computations on the verified paths are compositions of `+ - * / %`,
  `round`, `floor`-style casts, `max` and `abs` on small decimal literals,
  which `Frac` reproduces exactly (real-float rounding error is not
  modelled; none of the settled claims hinges on it).
* Machine integers (`u8`, `u16`, `u32`, `usize`) are modelled by `ℕ` with
  explicit wrapping (`% 2^w`) or saturation where the Rust code wraps or
  saturates.  Rust float-to-integer `as` casts saturate, which the
  `f32ToU32`-style functions reproduce.
* `Vec<T>` is `List T`, `String` is `List Char`, fallible functions return
  `Except MonochoraError`.  `HashMap` (used only for the color cache) is
  modelled as a lookup function built by a fold of overwriting updates,
  which is exactly the observable behaviour of `HashMap::insert`/`get`.
* Parallel row/frame maps (rayon `into_par_iter().map(...).collect()`)
  preserve order and have no shared state; they are modelled as plain
  `List.map`.
-/

namespace Monochora

/-! ### Exact fraction model of Rust floats (src: numeric operations used in converter.rs / output.rs) -/

/-- Unnormalized fraction: models an `f32`/`f64` value exactly.  All
fractions built by the embedding have positive denominators; lemmas carry
that invariant as a hypothesis where they need it. -/
structure Frac where
  num : ℤ
  den : ℤ
deriving DecidableEq

/-- Embed a natural number (e.g. a Rust integer cast to float). -/
def Frac.ofNat (n : ℕ) : Frac := ⟨n, 1⟩

/-- Float addition. -/
def Frac.add (a b : Frac) : Frac := ⟨a.num * b.den + b.num * a.den, a.den * b.den⟩

/-- Float subtraction. -/
def Frac.sub (a b : Frac) : Frac := ⟨a.num * b.den - b.num * a.den, a.den * b.den⟩

/-- Float multiplication. -/
def Frac.mul (a b : Frac) : Frac := ⟨a.num * b.num, a.den * b.den⟩

/-- Float division.  The sign factor keeps the denominator positive
whenever the inputs have positive denominators and the divisor is
nonzero; division by zero never happens on the verified paths (the code
validates the divisors first). -/
def Frac.div (a b : Frac) : Frac := ⟨a.num * b.den * b.num.sign, a.den * b.num.natAbs⟩

/-- Float comparison `a <= b` (valid for positive denominators). -/
def Frac.le (a b : Frac) : Prop := a.num * b.den ≤ b.num * a.den

/-- Float comparison `a < b` (valid for positive denominators). -/
def Frac.lt (a b : Frac) : Prop := a.num * b.den < b.num * a.den

instance (a b : Frac) : Decidable (Frac.le a b) := by
  unfold Frac.le
  infer_instance

instance (a b : Frac) : Decidable (Frac.lt a b) := by
  unfold Frac.lt
  infer_instance

/-- Rust `f32::max` (no NaN on the verified paths). -/
def Frac.fmax (a b : Frac) : Frac := if Frac.lt a b then b else a

/-- Mathematical floor of a fraction with positive denominator
(`Int.ediv` is floor division for positive divisors). -/
def Frac.floorZ (f : Frac) : ℤ := Int.ediv f.num f.den

/-- Rust `f32::round` (ties away from zero). -/
def Frac.roundZ (f : Frac) : ℤ :=
  if Frac.le ⟨0, 1⟩ f then Frac.floorZ (f.add ⟨1, 2⟩) else -Frac.floorZ ((Frac.sub ⟨0, 1⟩ f).add ⟨1, 2⟩)

/-- Rust `as u32` cast from a float: truncate toward zero, saturating at
the type bounds (all verified uses are on nonnegative values, where
truncation equals floor). -/
def f32ToU32 (f : Frac) : ℕ := min (Frac.floorZ f).toNat (2 ^ 32 - 1)

/-- Rust `as usize` cast from a float, same saturating semantics. -/
def f32ToUsize (f : Frac) : ℕ := min (Frac.floorZ f).toNat (2 ^ 64 - 1)

/-- Rust `as u8` cast from a float, same saturating semantics. -/
def f32ToU8 (f : Frac) : ℕ := min (Frac.floorZ f).toNat 255

/-! ### Error type (src/src/error.rs, restricted to the variants the claims reach) -/

/-- Error variants of `MonochoraError` reachable from the embedded code. -/
inductive MonochoraError where
  | InvalidDimensions (width height : ℕ)
  | Config (msg : String)
  | Animation (msg : String)
  | Terminal (msg : String)
deriving DecidableEq

instance {ε α : Type} [DecidableEq ε] [DecidableEq α] : DecidableEq (Except ε α) :=
fun a b =>
  match a, b with
  | .ok x, .ok y =>
    match decEq x y with
    | isTrue h => isTrue (by rw [h])
    | isFalse h => isFalse (by intro hc; cases hc; exact h rfl)
  | .error x, .error y =>
    match decEq x y with
    | isTrue h => isTrue (by rw [h])
    | isFalse h => isFalse (by intro hc; cases hc; exact h rfl)
  | .ok _, .error _ => isFalse (by intro hc; cases hc)
  | .error _, .ok _ => isFalse (by intro hc; cases hc)

/-! ### Character ramps and converter configuration (src/src/converter.rs lines 5-85) -/

/-- `SIMPLE_CHARS` from converter.rs. -/
def SIMPLE_CHARS : List Char := [' ', '.', ':', '-', '=', '+', '*', '#', '%', '@']

/-- `DETAILED_CHARS` from converter.rs (the apostrophe and backtick glyphs
are written via `Char.ofNat` 39 and 96). -/
def DETAILED_CHARS : List Char :=
  [' ', '.', Char.ofNat 39, Char.ofNat 96, '^', '"', ',', ':', ';', 'I', 'l', '!', 'i', '>', '<',
   '~', '+', '_', '-', '?', ']', '[', '}', '{', '1', ')', '(', '|', '\\', '/', 't', 'f', 'j', 'r',
   'x', 'n', 'u', 'v', 'c', 'z', 'X', 'Y', 'U', 'J', 'C', 'L', 'Q', '0', 'O', 'Z', 'm', 'w', 'q',
   'p', 'd', 'b', 'k', 'h', 'a', 'o', '*', '#', 'M', 'W', '&', '8', '%', 'B', '@']

/-- `AsciiConverterConfig` (the Rust field `preserve_aspect_ratio` is named
`preserve_aspect` here). -/
structure AsciiConverterConfig where
  width : Option ℕ
  height : Option ℕ
  char_aspect : Frac
  invert : Bool
  detailed : Bool
  preserve_aspect : Bool
  scale_factor : Option Frac
  custom_charset : Option (List Char)
deriving DecidableEq

/-- `AsciiConverterConfig::default`. -/
def AsciiConverterConfig.default : AsciiConverterConfig :=
  { width := none, height := none, char_aspect := ⟨1, 2⟩, invert := false, detailed := true,
    preserve_aspect := true, scale_factor := none, custom_charset := none }

/-- Charset part of `AsciiConverterConfig::validate` (converter.rs lines 64-71). -/
def AsciiConverterConfig.validateCharset (c : AsciiConverterConfig) : Except MonochoraError Unit :=
  match c.custom_charset with
  | some cs =>
    if cs.length < 2 then
      .error (.Config "Custom character set must contain at least 2 characters")
    else if cs.length > 256 then
      .error (.Config "Custom character set cannot exceed 256 characters")
    else .ok ()
  | none => .ok ()

/-- `AsciiConverterConfig::validate` (converter.rs lines 41-74), with the
checks in source order. -/
def AsciiConverterConfig.validate (c : AsciiConverterConfig) : Except MonochoraError Unit :=
  if c.width = some 0 then .error (.InvalidDimensions 0 (c.height.getD 0))
  else if c.height = some 0 then .error (.InvalidDimensions (c.width.getD 0) 0)
  else if Frac.le c.char_aspect ⟨0, 1⟩ then
    .error (.Config "Character aspect ratio must be positive")
  else
    match c.scale_factor with
    | some s =>
      if Frac.le s ⟨0, 1⟩ then .error (.Config "Scale factor must be positive")
      else AsciiConverterConfig.validateCharset c
    | none => AsciiConverterConfig.validateCharset c

/-- `AsciiConverterConfig::get_charset`. -/
def AsciiConverterConfig.get_charset (c : AsciiConverterConfig) : List Char :=
  match c.custom_charset with
  | some custom => custom
  | none => if c.detailed then DETAILED_CHARS else SIMPLE_CHARS

/-! ### Pixels and images (the `GenericImageView<Pixel = Rgba<u8>>` collaborator) -/

/-- An RGBA pixel; components are bytes (`< 256` is carried as a
hypothesis where a claim needs it). -/
structure Rgba where
  r : ℕ
  g : ℕ
  b : ℕ
  a : ℕ
deriving DecidableEq

/-- A source image: dimensions plus a total pixel function (models
`GenericImageView::get_pixel`, which the code only calls in bounds). -/
structure Img where
  width : ℕ
  height : ℕ
  pixel : ℕ → ℕ → Rgba

/-! ### Brightness, glyph index and target dimensions (converter.rs lines 210-285) -/

/-- `calculate_brightness` (converter.rs lines 210-212). -/
def calculate_brightness (r g b : ℕ) : Frac :=
  Frac.div
    (Frac.add (Frac.add (Frac.mul ⟨299, 1000⟩ (Frac.ofNat r)) (Frac.mul ⟨587, 1000⟩ (Frac.ofNat g)))
      (Frac.mul ⟨114, 1000⟩ (Frac.ofNat b)))
    (Frac.ofNat 255)

/-- `calculate_char_index` (converter.rs lines 214-221). -/
def calculate_char_index (brightness : Frac) (chars_len : ℕ) : ℕ :=
  if chars_len = 0 then 0
  else
    min (f32ToUsize ⟨Frac.roundZ (Frac.mul brightness (Frac.ofNat (chars_len - 1))), 1⟩)
      (chars_len - 1)

/-- `calculate_target_dimensions` (converter.rs lines 223-285). -/
def calculate_target_dimensions (img_width img_height : ℕ) (config : AsciiConverterConfig) :
    Except MonochoraError (ℕ × ℕ) :=
  if img_width = 0 ∨ img_height = 0 then
    .error (.InvalidDimensions img_width img_height)
  else
    match config.scale_factor with
    | some scale =>
      if Frac.le scale ⟨0, 1⟩ then .error (.Config "Scale factor must be positive")
      else
        .ok (f32ToU32 (Frac.fmax (Frac.mul (Frac.ofNat img_width) scale) (Frac.ofNat 1)),
          f32ToU32 (Frac.fmax (Frac.div (Frac.mul (Frac.ofNat img_height) scale) config.char_aspect)
            (Frac.ofNat 1)))
    | none =>
      match config.width, config.height with
      | some w, some h =>
        if w = 0 ∨ h = 0 then .error (.InvalidDimensions w h) else .ok (w, h)
      | some w, none =>
        if w = 0 then .error (.InvalidDimensions w 0)
        else
          .ok (w,
            if config.preserve_aspect then
              f32ToU32 (Frac.fmax
                (Frac.div (Frac.div (Frac.mul (Frac.ofNat w) (Frac.ofNat img_height))
                  (Frac.ofNat img_width)) config.char_aspect) (Frac.ofNat 1))
            else f32ToU32 (Frac.fmax (Frac.div (Frac.ofNat img_height) config.char_aspect)
              (Frac.ofNat 1)))
      | none, some h =>
        if h = 0 then .error (.InvalidDimensions 0 h)
        else
          .ok ((if config.preserve_aspect then
              f32ToU32 (Frac.fmax
                (Frac.mul (Frac.div (Frac.mul (Frac.ofNat h) (Frac.ofNat img_width))
                  (Frac.ofNat img_height)) config.char_aspect) (Frac.ofNat 1))
            else img_width), h)
      | none, none =>
        .ok (img_width,
          if config.preserve_aspect then
            f32ToU32 (Frac.fmax (Frac.div (Frac.ofNat img_height) config.char_aspect)
              (Frac.ofNat 1))
          else img_height)

/-! ### The per-cell sampling and glyph choice (converter.rs lines 110-146) -/

/-- Source column sampled for output column `x` (converter.rs lines
116-120): `((x as f64 / target as f64) * source as f64) as u32`, clamped
to `source.saturating_sub(1)`. -/
def sampleIndex (x target source : ℕ) : ℕ :=
  min (f32ToU32 (Frac.mul (Frac.div (Frac.ofNat x) (Frac.ofNat target)) (Frac.ofNat source)))
    (source - 1)

/-- One cell of the monochrome output (converter.rs lines 122-138):
transparent pixels map to a space, otherwise the ramp glyph chosen by
brightness (with optional inversion). -/
def asciiCell (img : Img) (invert : Bool) (chars : List Char) (tw th x y : ℕ) : Char :=
  let px := img.pixel (sampleIndex x tw img.width) (sampleIndex y th img.height)
  if px.a = 0 then ' '
  else
    let brightness := calculate_brightness px.r px.g px.b
    let brightness := if invert then Frac.sub ⟨1, 1⟩ brightness else brightness
    (chars.getD (calculate_char_index brightness chars.length) ' ')

/-- `image_to_ascii` (converter.rs lines 87-146).  The rayon parallel
row map is order-preserving and side-effect free, so it is a `List.map`
over row indices. -/
def image_to_ascii (img : Img) (config : AsciiConverterConfig) :
    Except MonochoraError (List (List Char)) :=
  match config.validate with
  | .error e => .error e
  | .ok _ =>
    let chars := config.get_charset
    if img.width = 0 ∨ img.height = 0 then .error (.InvalidDimensions img.width img.height)
    else
      match calculate_target_dimensions img.width img.height config with
      | .error e => .error e
      | .ok (tw, th) =>
        if tw = 0 ∨ th = 0 then .error (.InvalidDimensions tw th)
        else
          .ok ((List.range th).map (fun y =>
            (List.range tw).map (fun x => asciiCell img config.invert chars tw th x y)))

/-- Representation invariant of the float model: every actual `f32` value
in a config is represented by a fraction with positive denominator. -/
def AsciiConverterConfig.WF (c : AsciiConverterConfig) : Prop :=
  0 < c.char_aspect.den ∧
    match c.scale_factor with
    | some s => 0 < s.den
    | none => True

instance (c : AsciiConverterConfig) : Decidable c.WF :=
  match hm : c.scale_factor with
  | some s =>
    decidable_of_iff (0 < c.char_aspect.den ∧ 0 < s.den) (by unfold AsciiConverterConfig.WF; rw [hm])
  | none =>
    decidable_of_iff (0 < c.char_aspect.den ∧ True) (by unfold AsciiConverterConfig.WF; rw [hm])

/-- The character grid produced by a successful `image_to_ascii` run with
target dimensions `tw × th` (rows of converter.rs lines 110-143). -/
def asciiGrid (img : Img) (cfg : AsciiConverterConfig) (tw th : ℕ) : List (List Char) :=
  (List.range th).map (fun y =>
    (List.range tw).map (fun x => asciiCell img cfg.invert cfg.get_charset tw th x y))

/-! ### Concrete instances for the scenario claims -/

/-- A 10 by 10 source image whose pixels are all opaque black (claim C1). -/
def blackImg10 : Img := ⟨10, 10, fun _ _ => ⟨0, 0, 0, 255⟩⟩

/-- The C1 scenario config: ramp `[' ', '@']`, `width = 10`,
aspect-preserving, `char_aspect = 0.5`, `invert = false`. -/
def cfgC1 : AsciiConverterConfig :=
  { width := some 10, height := none, char_aspect := ⟨1, 2⟩, invert := false, detailed := true,
    preserve_aspect := true, scale_factor := none, custom_charset := some [' ', '@'] }

/-- A scale-factor-mode config used as the C5 witness input. -/
def cfgC5w : AsciiConverterConfig :=
  { width := none, height := none, char_aspect := ⟨1, 2⟩, invert := false, detailed := true,
    preserve_aspect := true, scale_factor := some ⟨1, 2⟩, custom_charset := none }

/-- A 1 by 1 opaque white image used as the C10 witness input. -/
def whiteImg1 : Img := ⟨1, 1, fun _ _ => ⟨255, 255, 255, 255⟩⟩

/-! ### Colored output encoding (converter.rs lines 148-208) -/

/-- An RGB color (`image::Rgb<u8>`). -/
structure Rgb where
  r : ℕ
  g : ℕ
  b : ℕ
deriving DecidableEq

/-- `ColoredCharacter` (output.rs lines 62-67). -/
structure ColoredCharacter where
  character : Char
  color : Rgb
deriving DecidableEq

/-- Decimal digits of a natural number, as printed by Rust `Display`
(used by the `format!` call on converter.rs line 199). -/
def natDecimal (n : ℕ) : List Char := (Nat.repr n).data

/-- The ANSI truecolor foreground escape prefix written for one colored
cell: `"\x1b[38;2;{r};{g};{b}m"` (converter.rs line 199). -/
def escapeSeq (r g b : ℕ) : List Char :=
  '\x1b' :: '[' :: '3' :: '8' :: ';' :: '2' :: ';' ::
    (natDecimal r ++ ';' :: natDecimal g ++ ';' :: natDecimal b ++ ['m'])

/-- The ANSI reset sequence `"\x1b[0m"` appended to every colored row
(converter.rs line 202). -/
def resetSeq : List Char := ['\x1b', '[', '0', 'm']

/-- One cell of the colored output (converter.rs lines 176-200):
transparent pixels contribute a bare space, opaque pixels an escape
carrying their RGB followed by the ramp glyph. -/
def coloredCell (img : Img) (invert : Bool) (chars : List Char) (tw th x y : ℕ) : List Char :=
  let px := img.pixel (sampleIndex x tw img.width) (sampleIndex y th img.height)
  if px.a = 0 then [' ']
  else
    let brightness := calculate_brightness px.r px.g px.b
    let brightness := if invert then Frac.sub ⟨1, 1⟩ brightness else brightness
    escapeSeq px.r px.g px.b ++ [chars.getD (calculate_char_index brightness chars.length) ' ']

/-- One row of the colored output. -/
def coloredRow (img : Img) (invert : Bool) (chars : List Char) (tw th y : ℕ) : List Char :=
  ((List.range tw).map (fun x => coloredCell img invert chars tw th x y)).flatten ++ resetSeq

/-- `image_to_colored_ascii` (converter.rs lines 148-208), same scaffold
as `image_to_ascii`. -/
def image_to_colored_ascii (img : Img) (config : AsciiConverterConfig) :
    Except MonochoraError (List (List Char)) :=
  match config.validate with
  | .error e => .error e
  | .ok _ =>
    let chars := config.get_charset
    if img.width = 0 ∨ img.height = 0 then .error (.InvalidDimensions img.width img.height)
    else
      match calculate_target_dimensions img.width img.height config with
      | .error e => .error e
      | .ok (tw, th) =>
        if tw = 0 ∨ th = 0 then .error (.InvalidDimensions tw th)
        else
          .ok ((List.range th).map (fun y => coloredRow img config.invert chars tw th y))

/-! ### The ANSI run parser (output.rs lines 78-215)

The Rust code matches the regex `\x1b\[38;2;(\d+);(\d+);(\d+)m([^\x1b]*)`
with `find_iter` (leftmost, non-overlapping).  The functions below
implement exactly that matcher for this fixed pattern: at each position
try to read the literal prefix, three nonempty digit groups separated by
`;`, a literal `m`, then the longest run of characters other than
`\x1b`.  Greediness needs no backtracking here because `;` and `m` are
not digits.  The inputs produced by this program are ASCII, where the
regex class `\d` coincides with `Char.isDigit`. -/

/-- Value of a nonempty decimal digit string. -/
def digitsVal (ds : List Char) : ℕ := ds.foldl (fun a c => 10 * a + (c.toNat - 48)) 0

/-- Read a nonempty maximal digit group (`\d+`). -/
def takeDigits (s : List Char) : Option (ℕ × List Char) :=
  let ds := s.takeWhile (fun c => c.isDigit)
  if ds = [] then none else some (digitsVal ds, s.dropWhile (fun c => c.isDigit))

/-- Try to match the ANSI color regex at the head of `s`; on success
return the three captured numbers, the glyph run (capture 4) and the
remainder after the match. -/
def matchAnsiAt (s : List Char) : Option (ℕ × ℕ × ℕ × List Char × List Char) :=
  match s with
  | '\x1b' :: '[' :: '3' :: '8' :: ';' :: '2' :: ';' :: rest =>
    match takeDigits rest with
    | none => none
    | some (r, rest1) =>
      match rest1 with
      | ';' :: rest2 =>
        match takeDigits rest2 with
        | none => none
        | some (g, rest3) =>
          match rest3 with
          | ';' :: rest4 =>
            match takeDigits rest4 with
            | none => none
            | some (b, rest5) =>
              match rest5 with
              | 'm' :: rest6 =>
                some (r, g, b, rest6.takeWhile (fun c => c != '\x1b'),
                  rest6.dropWhile (fun c => c != '\x1b'))
              | _ => none
          | _ => none
      | _ => none
  | _ => none

/-- Leftmost match of the ANSI color regex in `s` (`Regex::find_iter`
step): the text before the match, the captures, and the remainder. -/
def findAnsi : List Char → Option (List Char × ℕ × ℕ × ℕ × List Char × List Char)
  | [] => none
  | c :: rest =>
    match matchAnsiAt (c :: rest) with
    | some (r, g, b, run, after) => some ([], r, g, b, run, after)
    | none =>
      match findAnsi rest with
      | some (pre, r, g, b, run, after) => some (c :: pre, r, g, b, run, after)
      | none => none

/-- Main loop of `parse_line_to_colored_characters` (output.rs lines
165-212).  Text before a match keeps the current color (dropping raw
`\x1b` bytes); a match updates the color only if all three captures
parse as `u8` (values at most 255) and emits its glyph run; text after
the last match drops `\x1b` and NUL bytes.  One fuel unit is spent per
regex match; every match consumes at least eight characters, so fuel
`s.length` is never exhausted and the fuel-zero arm repeats the
no-further-match arm. -/
def parseGo : ℕ → List Char → Rgb → List ColoredCharacter
  | 0, s, cur => (s.filter (fun c => c != '\x1b' && c != '\x00')).map (fun c => ⟨c, cur⟩)
  | fuel + 1, s, cur =>
    match findAnsi s with
    | none => (s.filter (fun c => c != '\x1b' && c != '\x00')).map (fun c => ⟨c, cur⟩)
    | some (pre, r, g, b, run, after) =>
      let pres := (pre.filter (fun c => c != '\x1b')).map
        (fun c => (⟨c, cur⟩ : ColoredCharacter))
      if r ≤ 255 ∧ g ≤ 255 ∧ b ≤ 255 then
        pres ++ run.map (fun c => (⟨c, ⟨r, g, b⟩⟩ : ColoredCharacter)) ++
          parseGo fuel after ⟨r, g, b⟩
      else
        pres ++ parseGo fuel after cur

/-- `parse_line_to_colored_characters` (output.rs lines 157-215). -/
def parse_line_to_colored_characters (line : List Char) (default_color : Rgb) :
    List ColoredCharacter :=
  if line.contains '\x1b' then parseGo line.length line default_color
  else line.map (fun c => ⟨c, default_color⟩)

/-- `str::replace("\x1b[0m", "")`: delete every occurrence of the reset
sequence, left to right (used by output.rs line 515). -/
def removeResetSeq : List Char → List Char
  | '\x1b' :: '[' :: '0' :: 'm' :: rest => removeResetSeq rest
  | c :: rest => c :: removeResetSeq rest
  | [] => []

/-- Main loop of `calculate_line_character_count` (output.rs lines
495-522), same fuel convention as `parseGo`. -/
def countGo : ℕ → List Char → ℕ
  | 0, s => ((removeResetSeq s).filter (fun c => c != '\x1b')).length
  | fuel + 1, s =>
    match findAnsi s with
    | none => ((removeResetSeq s).filter (fun c => c != '\x1b')).length
    | some (pre, _, _, _, run, after) =>
      (pre.filter (fun c => c != '\x1b')).length + run.length + countGo fuel after

/-- `calculate_line_character_count` (output.rs lines 495-522). -/
def calculate_line_character_count (line : List Char) : ℕ :=
  if line.contains '\x1b' then countGo line.length line else line.length

/-! ### Palettes (output.rs lines 307-387) -/

/-- Rust `f32::abs`. -/
def Frac.fabs (f : Frac) : Frac := if Frac.le ⟨0, 1⟩ f then f else Frac.sub ⟨0, 1⟩ f

/-- Rust `as i32` cast from a float: truncation toward zero (i32-range
saturation omitted; the only use is hue values in `[0, 360)`). -/
def f32ToI32Trunc (f : Frac) : ℤ :=
  if Frac.le ⟨0, 1⟩ f then Frac.floorZ f else -Frac.floorZ (Frac.sub ⟨0, 1⟩ f)

/-- Rust `%` on floats: `a - b * trunc(a / b)`. -/
def Frac.rem (a b : Frac) : Frac :=
  Frac.sub a (Frac.mul b ⟨f32ToI32Trunc (Frac.div a b), 1⟩)

/-- `hsv_to_rgb` (output.rs lines 368-387). -/
def hsv_to_rgb (h s v : Frac) : ℕ × ℕ × ℕ :=
  let c := v.mul s
  let x := c.mul (Frac.sub ⟨1, 1⟩ (Frac.fabs (Frac.sub (Frac.rem (h.div ⟨60, 1⟩) ⟨2, 1⟩) ⟨1, 1⟩)))
  let m := v.sub c
  let hi := f32ToI32Trunc h
  let rgbp : Frac × Frac × Frac :=
    if 0 ≤ hi ∧ hi ≤ 59 then (c, x, ⟨0, 1⟩)
    else if 60 ≤ hi ∧ hi ≤ 119 then (x, c, ⟨0, 1⟩)
    else if 120 ≤ hi ∧ hi ≤ 179 then (⟨0, 1⟩, c, x)
    else if 180 ≤ hi ∧ hi ≤ 239 then (⟨0, 1⟩, x, c)
    else if 240 ≤ hi ∧ hi ≤ 299 then (x, ⟨0, 1⟩, c)
    else (c, ⟨0, 1⟩, x)
  (f32ToU8 ((rgbp.1.add m).mul ⟨255, 1⟩), f32ToU8 ((rgbp.2.1.add m).mul ⟨255, 1⟩),
    f32ToU8 ((rgbp.2.2.add m).mul ⟨255, 1⟩))

/-- The 24 fixed `primary_colors` of output.rs lines 312-319. -/
def primaryColors : List (List ℕ) :=
  [[255, 255, 255], [255, 0, 0], [0, 255, 0], [0, 0, 255],
   [255, 255, 0], [255, 0, 255], [0, 255, 255], [0, 0, 0],
   [128, 128, 128], [192, 192, 192], [64, 64, 64], [160, 160, 160],
   [255, 128, 0], [128, 255, 0], [0, 255, 128], [128, 0, 255],
   [255, 0, 128], [0, 128, 255], [255, 192, 192], [192, 255, 192],
   [192, 192, 255], [255, 255, 192], [255, 192, 255], [192, 255, 255]]

/-- The five `(sat, val)` pairs of output.rs line 327. -/
def satValPairs : List (Frac × Frac) :=
  [(⟨1, 1⟩, ⟨1, 1⟩), (⟨8, 10⟩, ⟨9, 10⟩), (⟨6, 10⟩, ⟨8, 10⟩), (⟨4, 10⟩, ⟨7, 10⟩),
   (⟨2, 10⟩, ⟨6, 10⟩)]

/-- The HSV sweep of output.rs lines 325-331 (24 hues times 5
saturation/value levels, 3 bytes each). -/
def hsvSweep : List ℕ :=
  (List.range 24).flatMap (fun i =>
    satValPairs.flatMap (fun sv =>
      let rgb := hsv_to_rgb (Frac.mul (Frac.div (Frac.ofNat i) ⟨24, 1⟩) ⟨360, 1⟩) sv.1 sv.2
      [rgb.1, rgb.2.1, rgb.2.2]))

/-- The 64-step grayscale ramp of output.rs lines 333-336 (integer
arithmetic in the source). -/
def grayRamp : List ℕ :=
  (List.range 64).flatMap (fun i => [i * 255 / 63, i * 255 / 63, i * 255 / 63])

/-- The `while palette.len() < MAX_PALETTE_COLORS * 3` padding loop
(output.rs lines 338-341 and 360-363): append the background triple
until the palette reaches 768 bytes.  One fuel unit per iteration; each
iteration adds three bytes, so fuel 768 is never exhausted. -/
def padPalette : ℕ → List ℕ → ℕ → ℕ → ℕ → List ℕ
  | 0, p, _, _, _ => p
  | fuel + 1, p, b0, b1, b2 =>
    if p.length < 768 then padPalette fuel (p ++ [b0, b1, b2]) b0 b1 b2 else p

/-- `create_enhanced_color_palette` (output.rs lines 307-344). -/
def create_enhanced_color_palette (bg : Rgb) : List ℕ :=
  let base := [bg.r, bg.g, bg.b] ++ primaryColors.flatten ++ hsvSweep ++ grayRamp
  (padPalette 768 base bg.r bg.g bg.b).take 768

/-- One interpolated entry of the monochrome gradient (output.rs lines
352-358). -/
def gradientEntry (bg text : Rgb) (i : ℕ) : List ℕ :=
  let ratio : Frac := Frac.div (Frac.ofNat i) ⟨32, 1⟩
  [f32ToU8 ((Frac.mul (Frac.ofNat bg.r) (Frac.sub ⟨1, 1⟩ ratio)).add
      (Frac.mul (Frac.ofNat text.r) ratio)),
   f32ToU8 ((Frac.mul (Frac.ofNat bg.g) (Frac.sub ⟨1, 1⟩ ratio)).add
      (Frac.mul (Frac.ofNat text.g) ratio)),
   f32ToU8 ((Frac.mul (Frac.ofNat bg.b) (Frac.sub ⟨1, 1⟩ ratio)).add
      (Frac.mul (Frac.ofNat text.b) ratio))]

/-- `create_optimized_palette` (output.rs lines 346-366). -/
def create_optimized_palette (bg text : Rgb) : List ℕ :=
  let base := [bg.r, bg.g, bg.b] ++ [text.r, text.g, text.b] ++
    (List.range 31).flatMap (fun j => gradientEntry bg text (j + 1))
  (padPalette 768 base bg.r bg.g bg.b).take 768

/-- RGB triple stored at palette slot `i`. -/
def tripleAt (p : List ℕ) (i : ℕ) : ℕ × ℕ × ℕ :=
  (p.getD (3 * i) 0, p.getD (3 * i + 1) 0, p.getD (3 * i + 2) 0)

/-! ### Quantizer (output.rs lines 389-437) -/

/-- Squared Euclidean RGB distance in `i32` arithmetic, cast to `u32`
(output.rs lines 422-426). -/
def colorDist (a t : ℕ × ℕ × ℕ) : ℕ :=
  (((a.1 : ℤ) - t.1) ^ 2 + ((a.2.1 : ℤ) - t.2.1) ^ 2 + ((a.2.2 : ℤ) - t.2.2) ^ 2).toNat

/-- One `HashMap::insert` step of `create_color_cache` (output.rs lines
395-401): an in-bounds slot overwrites any earlier binding of the same
triple.  The stored value is the slot index cast to `u8`. -/
def cacheStep (p : List ℕ) (cache : (ℕ × ℕ × ℕ) → Option ℕ) (i : ℕ) : (ℕ × ℕ × ℕ) → Option ℕ :=
  if 3 * i + 2 < p.length then
    fun k => if k = tripleAt p i then some (i % 256) else cache k
  else cache

/-- `create_color_cache` (output.rs lines 391-404): a `HashMap` built by
inserting every palette slot in index order, modelled as the lookup
function the map denotes. -/
def create_color_cache (p : List ℕ) : (ℕ × ℕ × ℕ) → Option ℕ :=
  (List.range (p.length / 3)).foldl (cacheStep p) (fun _ => none)

/-- The linear scan of `find_closest_color` (output.rs lines 411-434)
over the remaining slot indices, carrying `min_distance` and
`best_index` and breaking early on an exact match. -/
def findScan (rgb : ℕ × ℕ × ℕ) (p : List ℕ) : List ℕ → ℕ → ℕ → ℕ
  | [], _, best => best
  | i :: is, minD, best =>
    if 3 * i + 2 < p.length then
      let d := colorDist rgb (tripleAt p i)
      if d < minD then
        if d = 0 then i % 256
        else findScan rgb p is d (i % 256)
      else findScan rgb p is minD best
    else findScan rgb p is minD best

/-- `find_closest_color` (output.rs lines 406-437): exact cache hit, or
linear scan with `min_distance` starting at `u32::MAX`. -/
def find_closest_color (rgb : ℕ × ℕ × ℕ) (p : List ℕ) (cache : (ℕ × ℕ × ℕ) → Option ℕ) : ℕ :=
  match cache rgb with
  | some idx => idx
  | none => findScan rgb p (List.range (p.length / 3)) (2 ^ 32 - 1) 0

/-! ### Frame delays (handler.rs, display.rs, output.rs) -/

/-- Delay normalization of `decode_gif` (handler.rs line 110):
`if frame.delay == 0 { 100 } else { frame.delay * 10 }`, where
`frame.delay` and the product are `u16` (wrapping at 65536). -/
def decode_gif_delay_ms (container_delay : ℕ) : ℕ :=
  if container_delay = 0 then 100 else container_delay * 10 % 65536

/-- `validate_animation_input` (display.rs lines 27-61).  The frame
shape checks on lines 40-58 only emit log messages, so the observable
result is determined by the two emptiness checks. -/
def validate_animation_input (frames : List (List (List Char))) (frame_delays : List ℕ) :
    Except MonochoraError Unit :=
  if frames = [] then .error (.Animation "No frames provided for animation")
  else if frame_delays = [] then .error (.Animation "No frame delays provided")
  else .ok ()

/-- The input guards at the top of `ascii_frames_to_gif_with_dimensions`
(output.rs lines 610-618), which run before any rendering. -/
def ascii_frames_to_gif_guard (ascii_frames : List (List (List Char))) (frame_delays : List ℕ) :
    Except MonochoraError Unit :=
  if ascii_frames = [] then .error (.Config "No ASCII frames to convert")
  else if frame_delays = [] then .error (.Config "No frame delays provided")
  else .ok ()

/-- Per-frame delay selection of the GIF encoder (output.rs lines
683-689). -/
def gif_frame_delay (frame_delays : List ℕ) (frame_idx : ℕ) : ℕ :=
  if frame_idx < frame_delays.length then frame_delays.getD frame_idx 0
  else if frame_delays ≠ [] then frame_delays.getD 0 0
  else 100

/-- Per-frame delay selection of the terminal playback loop (display.rs
lines 151-159): a zero delay is replaced by 100 ms. -/
def display_frame_delay (frame_delays : List ℕ) (frame_idx : ℕ) : ℕ :=
  if frame_idx < frame_delays.length then
    if frame_delays.getD frame_idx 0 = 0 then 100 else frame_delays.getD frame_idx 0
  else if frame_delays ≠ [] then
    if frame_delays.getD 0 0 = 0 then 100 else frame_delays.getD 0 0
  else 100

/-! ### ResponsiveFrameManager (terminal_watcher.rs lines 116-189) -/

/-- `TerminalDimensions`. -/
structure TerminalDimensions where
  width : ℕ
  height : ℕ
deriving DecidableEq

/-- `ResponsiveFrameManager` state. -/
structure ResponsiveFrameManager where
  gif_frames : List Img
  config_template : AsciiConverterConfig
  frame_delays : List ℕ
  current_dimensions : TerminalDimensions
  cached_frames : Option (List (List (List Char)))
  colored : Bool

/-- `ResponsiveFrameManager::update_dimensions` (terminal_watcher.rs
lines 143-151), returning the bool result together with the new state. -/
def update_dimensions (m : ResponsiveFrameManager) (new_dimensions : TerminalDimensions) :
    Bool × ResponsiveFrameManager :=
  if new_dimensions ≠ m.current_dimensions then
    (true, { m with current_dimensions := new_dimensions, cached_frames := none })
  else (false, m)

/-- `ResponsiveFrameManager::regenerate_frames` (terminal_watcher.rs
lines 164-189), producing the new frame list. -/
def regenerate_frames (m : ResponsiveFrameManager) :
    Except MonochoraError (List (List (List Char))) :=
  let tw := m.current_dimensions.width - 2
  let th := m.current_dimensions.height - 4
  if tw = 0 ∨ th = 0 then .error (.Terminal "Terminal too small for display")
  else
    let cfg := { m.config_template with width := some tw, height := some th }
    m.gif_frames.mapM (fun frame =>
      if m.colored then image_to_colored_ascii frame cfg else image_to_ascii frame cfg)

/-- `ResponsiveFrameManager::get_frames` (terminal_watcher.rs lines
153-158), returning the frames together with the new state. -/
def get_frames (m : ResponsiveFrameManager) :
    Except MonochoraError (List (List (List Char)) × ResponsiveFrameManager) :=
  match m.cached_frames with
  | some fs => .ok (fs, m)
  | none =>
    match regenerate_frames m with
    | .error e => .error e
    | .ok fs => .ok (fs, { m with cached_frames := some fs })

/-! ### Concrete inputs for the remaining scenario claims -/

/-- A 1 by 1 opaque red image (claim C4). -/
def redImg1 : Img := ⟨1, 1, fun _ _ => ⟨255, 0, 0, 255⟩⟩

/-- Explicit 1 by 1 target with the two-glyph ramp (claim C4). -/
def cfgC4 : AsciiConverterConfig :=
  { width := some 1, height := some 1, char_aspect := ⟨1, 2⟩, invert := false, detailed := true,
    preserve_aspect := true, scale_factor := none, custom_charset := some [' ', '@'] }

/-- The colored row `image_to_colored_ascii` produces for `redImg1`
under `cfgC4`: one escape carrying `255;0;0`, the glyph, then the reset
sequence. -/
def lineC4 : List Char :=
  ['\x1b', '[', '3', '8', ';', '2', ';', '2', '5', '5', ';', '0', ';', '0', 'm', ' ',
   '\x1b', '[', '0', 'm']

/-- Concrete manager state for the C9 witness. -/
def mgrC9 : ResponsiveFrameManager :=
  { gif_frames := [], config_template := AsciiConverterConfig.default, frame_delays := [100],
    current_dimensions := ⟨80, 24⟩, cached_frames := none, colored := false }

/-- A dimension value different from `mgrC9`'s current one. -/
def dimsC9 : TerminalDimensions := ⟨100, 50⟩

/-- `k` repetitions of the background triple: the list the palette
padding loop appends (specification helper for the `padPalette` fuel
loop). -/
def padList (b0 b1 b2 : ℕ) : ℕ → List ℕ
  | 0 => []
  | k + 1 => b0 :: b1 :: b2 :: padList b0 b1 b2 k

/-! ## Lemmas about the fraction model -/

@[simp] theorem Frac.num_mk (n d : ℤ) : (Frac.mk n d).num = n := rfl

@[simp] theorem Frac.den_mk (n d : ℤ) : (Frac.mk n d).den = d := rfl

@[simp] theorem Frac.num_ofNat (n : ℕ) : (Frac.ofNat n).num = n := rfl

@[simp] theorem Frac.den_ofNat (n : ℕ) : (Frac.ofNat n).den = 1 := rfl

theorem Frac.le_def (a b : Frac) : Frac.le a b ↔ a.num * b.den ≤ b.num * a.den := Iff.rfl

theorem Frac.lt_def (a b : Frac) : Frac.lt a b ↔ a.num * b.den < b.num * a.den := Iff.rfl

theorem Frac.floorZ_mono {a b : Frac} (ha : 0 < a.den) (hb : 0 < b.den) (h : Frac.le a b) :
    a.floorZ ≤ b.floorZ := by
  unfold Frac.floorZ
  have e1 : Int.ediv a.num a.den = Int.ediv (b.den * a.num) (b.den * a.den) :=
    (Int.mul_ediv_mul_of_pos a.num a.den hb).symm
  have e2 : Int.ediv b.num b.den = Int.ediv (a.den * b.num) (a.den * b.den) :=
    (Int.mul_ediv_mul_of_pos b.num b.den ha).symm
  rw [e1, e2, mul_comm a.den b.den]
  exact Int.ediv_le_ediv (by positivity) (by rw [Frac.le_def] at h; nlinarith)

theorem Frac.one_le_floorZ {f : Frac} (hd : 0 < f.den) (h : Frac.le ⟨1, 1⟩ f) : 1 ≤ f.floorZ := by
  unfold Frac.floorZ
  refine (Int.le_ediv_iff_mul_le hd).mpr ?_
  rw [Frac.le_def] at h
  simp at h
  nlinarith

theorem one_le_f32ToU32_fmax_one {x : Frac} (hx : 0 < x.den) :
    0 < f32ToU32 (Frac.fmax x (Frac.ofNat 1)) := by
  by_cases hlt : Frac.lt x (Frac.ofNat 1)
  · rw [Frac.fmax, if_pos hlt]
    decide
  · rw [Frac.fmax, if_neg hlt]
    have hle : Frac.le ⟨1, 1⟩ x := by
      rw [Frac.lt_def] at hlt
      rw [Frac.le_def]
      simp at hlt ⊢
      omega
    have h1 : 1 ≤ x.floorZ := Frac.one_le_floorZ hx hle
    unfold f32ToU32
    omega

/-! ## Facts extracted from a successful config validation -/

theorem validate_ok_facts (c : AsciiConverterConfig) (h : c.validate = .ok ()) :
    c.width ≠ some 0 ∧ c.height ≠ some 0 ∧ ¬Frac.le c.char_aspect ⟨0, 1⟩ ∧
      ∀ s, c.scale_factor = some s → ¬Frac.le s ⟨0, 1⟩ := by
  unfold AsciiConverterConfig.validate at h
  split_ifs at h with h1 h2 h3
  refine ⟨h1, h2, h3, ?_⟩
  intro s hs
  rw [hs] at h
  by_contra hneg
  simp [hneg] at h

/-- Positivity of the numerator of a float that is not `<= 0.0`. -/
theorem Frac.num_pos_of_not_le_zero {f : Frac} (h : ¬Frac.le f ⟨0, 1⟩) : 0 < f.num := by
  rw [Frac.le_def] at h
  simp at h
  omega

theorem WF_scale_den {c : AsciiConverterConfig} (hwf : c.WF) {s : Frac}
    (hs : c.scale_factor = some s) : 0 < s.den := by
  have h2 := hwf.2
  rw [hs] at h2
  exact h2

theorem Frac.mul_den_pos {a b : Frac} (ha : 0 < a.den) (hb : 0 < b.den) :
    0 < (Frac.mul a b).den := by
  simp [Frac.mul]
  positivity

theorem Frac.div_den_pos {a b : Frac} (ha : 0 < a.den) (hb : b.num ≠ 0) :
    0 < (Frac.div a b).den := by
  simp [Frac.div]
  have : 0 < b.num.natAbs := Int.natAbs_pos.mpr hb
  have : (0 : ℤ) < b.num.natAbs := by exact_mod_cast this
  positivity

theorem Frac.ofNat_num_ne_zero {n : ℕ} (h : 0 < n) : (Frac.ofNat n).num ≠ 0 := by
  simp [Frac.ofNat]
  omega

/-! ## DimensionPlanner: success and positivity (claim C5 and support for C10) -/

/-- For positive source dimensions and a validated, well-formed config,
`calculate_target_dimensions` succeeds with both components positive. -/
theorem calc_dims_spec (iw ih : ℕ) (cfg : AsciiConverterConfig) (hiw : 0 < iw) (hih : 0 < ih)
    (hwf : cfg.WF) (hval : cfg.validate = .ok ()) :
    ∃ tw th, calculate_target_dimensions iw ih cfg = .ok (tw, th) ∧ 0 < tw ∧ 0 < th := by
  obtain ⟨hw0, hh0, ha, hsc⟩ := validate_ok_facts cfg hval
  have had : 0 < cfg.char_aspect.den := hwf.1
  have han : 0 < cfg.char_aspect.num := Frac.num_pos_of_not_le_zero ha
  have hanz : cfg.char_aspect.num ≠ 0 := by omega
  unfold calculate_target_dimensions
  rw [if_neg (by omega)]
  cases hsf : cfg.scale_factor with
  | some s =>
    have hsd : 0 < s.den := WF_scale_den hwf hsf
    have hsle := hsc s hsf
    dsimp only
    rw [if_neg hsle]
    exact ⟨_, _, rfl, one_le_f32ToU32_fmax_one (Frac.mul_den_pos (by simp) hsd),
      one_le_f32ToU32_fmax_one (Frac.div_den_pos (Frac.mul_den_pos (by simp) hsd) hanz)⟩
  | none =>
    dsimp only
    cases hcw : cfg.width with
    | some w =>
      have hwpos : 0 < w := by
        have : w ≠ 0 := fun hz => hw0 (by rw [hcw, hz])
        omega
      cases hch : cfg.height with
      | some h =>
        have hhpos : 0 < h := by
          have : h ≠ 0 := fun hz => hh0 (by rw [hch, hz])
          omega
        dsimp only
        rw [if_neg (by omega)]
        exact ⟨w, h, rfl, hwpos, hhpos⟩
      | none =>
        dsimp only
        rw [if_neg (by omega)]
        refine ⟨w, _, rfl, hwpos, ?_⟩
        split
        · exact one_le_f32ToU32_fmax_one
            (Frac.div_den_pos (Frac.div_den_pos (Frac.mul_den_pos (by simp) (by simp))
              (Frac.ofNat_num_ne_zero hiw)) hanz)
        · exact one_le_f32ToU32_fmax_one (Frac.div_den_pos (by simp) hanz)
    | none =>
      cases hch : cfg.height with
      | some h =>
        have hhpos : 0 < h := by
          have : h ≠ 0 := fun hz => hh0 (by rw [hch, hz])
          omega
        dsimp only
        rw [if_neg (by omega)]
        refine ⟨_, h, rfl, ?_, hhpos⟩
        split
        · exact one_le_f32ToU32_fmax_one
            (Frac.mul_den_pos (Frac.div_den_pos (Frac.mul_den_pos (by simp) (by simp))
              (Frac.ofNat_num_ne_zero hih)) had)
        · exact hiw
      | none =>
        dsimp only
        refine ⟨iw, _, rfl, hiw, ?_⟩
        split
        · exact one_le_f32ToU32_fmax_one (Frac.div_den_pos (by simp) hanz)
        · exact hih

/-- C5: for every source size with both sides positive and every config
passing validation, `calculate_target_dimensions` succeeds with both
dimensions positive; in scale-factor mode the width is a function of the
source width and scale alone and the height a function of the source
height, scale and `char_aspect` alone (the returned formulas mention
nothing else); in explicit width+height mode the configured values are
returned verbatim. -/
theorem claim_C5 (iw ih : ℕ) (cfg : AsciiConverterConfig) (hiw : 0 < iw) (hih : 0 < ih)
    (hwf : cfg.WF) (hval : cfg.validate = .ok ()) :
    (∃ tw th, calculate_target_dimensions iw ih cfg = .ok (tw, th) ∧ 0 < tw ∧ 0 < th) ∧
    (∀ s, cfg.scale_factor = some s →
      calculate_target_dimensions iw ih cfg =
        .ok (f32ToU32 (Frac.fmax (Frac.mul (Frac.ofNat iw) s) (Frac.ofNat 1)),
          f32ToU32 (Frac.fmax (Frac.div (Frac.mul (Frac.ofNat ih) s) cfg.char_aspect)
            (Frac.ofNat 1)))) ∧
    (∀ w h, cfg.scale_factor = none → cfg.width = some w → cfg.height = some h →
      calculate_target_dimensions iw ih cfg = .ok (w, h)) := by
  obtain ⟨hw0, hh0, ha, hsc⟩ := validate_ok_facts cfg hval
  refine ⟨calc_dims_spec iw ih cfg hiw hih hwf hval, ?_, ?_⟩
  · intro s hs
    unfold calculate_target_dimensions
    rw [if_neg (by omega)]
    simp only [hs]
    rw [if_neg (hsc s hs)]
  · intro w h hsf hw hh
    unfold calculate_target_dimensions
    rw [if_neg (by omega)]
    simp only [hsf, hw, hh]
    have hwz : w ≠ 0 := fun hz => hw0 (by rw [hw, hz])
    have hhz : h ≠ 0 := fun hz => hh0 (by rw [hh, hz])
    rw [if_neg (by omega)]

/-- Witness for C5 at a concrete scale-factor-mode input. -/
theorem claim_C5_witness :
    calculate_target_dimensions 3 2 cfgC5w =
      .ok (f32ToU32 (Frac.fmax (Frac.mul (Frac.ofNat 3) ⟨1, 2⟩) (Frac.ofNat 1)),
        f32ToU32 (Frac.fmax (Frac.div (Frac.mul (Frac.ofNat 2) ⟨1, 2⟩) cfgC5w.char_aspect)
          (Frac.ofNat 1))) :=
  (claim_C5 3 2 cfgC5w (by decide) (by decide) (by decide) (by decide)).2.1 ⟨1, 2⟩ rfl

/-! ## Claim C1: the all-black 10 by 10 scenario -/

/-- C1 counterexample: with source 10 by 10 all opaque black, ramp
`[' ', '@']`, `width = 10`, aspect preserved, `char_aspect = 0.5` and
`invert = false`, the output grid is 10 columns by 20 rows but every cell
is `' '` (ramp index 0), not `'@'` as the claim states. -/
theorem claim_C1_counterexample :
    image_to_ascii blackImg10 cfgC1 = .ok (List.replicate 20 (List.replicate 10 ' ')) ∧
      List.replicate 20 (List.replicate 10 ' ') ≠ List.replicate 20 (List.replicate 10 '@') := by
  constructor
  · decide
  · decide

/-- C1 amended: the scenario yields a 10-column by 20-row grid in which
every cell is the space glyph, i.e. the ramp glyph at index 0 (brightness
0 with `invert = false` selects ramp index 0, and index 0 of
`[' ', '@']` is `' '`). -/
theorem claim_C1_amended :
    image_to_ascii blackImg10 cfgC1 = .ok (List.replicate 20 (List.replicate 10 ' ')) := by
  decide

/-! ## Claim C10: shape of the monochrome output -/

/-- C10: for every image with positive dimensions and validated config,
`image_to_ascii` succeeds and returns exactly `target_height` rows of
exactly `target_width` characters each, where the targets come from
`calculate_target_dimensions`; each cell is the glyph computed by
`asciiCell` from its sampled source pixel, and a fully transparent
sampled pixel always yields a space. -/
theorem claim_C10 (img : Img) (cfg : AsciiConverterConfig) (hiw : 0 < img.width)
    (hih : 0 < img.height) (hwf : cfg.WF) (hval : cfg.validate = .ok ()) :
    (∀ e, calculate_target_dimensions img.width img.height cfg ≠ .error e) ∧
    ∀ tw th, calculate_target_dimensions img.width img.height cfg = .ok (tw, th) →
      image_to_ascii img cfg = .ok (asciiGrid img cfg tw th) ∧
      (asciiGrid img cfg tw th).length = th ∧
      (∀ row ∈ asciiGrid img cfg tw th, row.length = tw) ∧
      (∀ y x, y < th → x < tw →
        ((asciiGrid img cfg tw th).getD y []).getD x ' ' =
          asciiCell img cfg.invert cfg.get_charset tw th x y) ∧
      (∀ y x, y < th → x < tw →
        (img.pixel (sampleIndex x tw img.width) (sampleIndex y th img.height)).a = 0 →
        ((asciiGrid img cfg tw th).getD y []).getD x ' ' = ' ') := by
  obtain ⟨tw0, th0, hcalc, htw0, hth0⟩ :=
    calc_dims_spec img.width img.height cfg hiw hih hwf hval
  constructor
  · intro e he
    rw [hcalc] at he
    exact Except.noConfusion he
  · intro tw th hcalc2
    rw [hcalc] at hcalc2
    have hpair : tw0 = tw ∧ th0 = th := by
      have := hcalc2
      injection this with h1
      injection h1 with h2 h3
      exact ⟨h2, h3⟩
    obtain ⟨htw, hth⟩ := hpair
    subst htw
    subst hth
    have hcell : ∀ y x, y < th0 → x < tw0 →
        ((asciiGrid img cfg tw0 th0).getD y []).getD x ' ' =
          asciiCell img cfg.invert cfg.get_charset tw0 th0 x y := by
      intro y x hy hx
      have houter : (asciiGrid img cfg tw0 th0).getD y [] =
          (List.range tw0).map (fun x => asciiCell img cfg.invert cfg.get_charset tw0 th0 x y) := by
        unfold asciiGrid
        rw [List.getD_eq_getElem?_getD, List.getElem?_map, List.getElem?_range hy]
        rfl
      rw [houter, List.getD_eq_getElem?_getD, List.getElem?_map, List.getElem?_range hx]
      rfl
    refine ⟨?_, ?_, ?_, hcell, ?_⟩
    · unfold image_to_ascii
      rw [hval]
      dsimp only
      rw [if_neg (by omega), hcalc]
      dsimp only
      rw [if_neg (by omega)]
      rfl
    · simp [asciiGrid]
    · intro row hrow
      unfold asciiGrid at hrow
      simp only [List.mem_map, List.mem_range] at hrow
      obtain ⟨y, _, rfl⟩ := hrow
      simp
    · intro y x hy hx ha
      rw [hcell y x hy hx]
      unfold asciiCell
      simp [ha]

/-- Witness for C10 at a concrete 1 by 1 white image with the default
config (target dimensions 1 by 2). -/
theorem claim_C10_witness :
    image_to_ascii whiteImg1 AsciiConverterConfig.default =
      .ok (asciiGrid whiteImg1 AsciiConverterConfig.default 1 2) ∧
    (asciiGrid whiteImg1 AsciiConverterConfig.default 1 2).length = 2 ∧
    ((asciiGrid whiteImg1 AsciiConverterConfig.default 1 2).getD 0 []).getD 0 ' ' =
      asciiCell whiteImg1 AsciiConverterConfig.default.invert
        AsciiConverterConfig.default.get_charset 1 2 0 0 := by
  have h := (claim_C10 whiteImg1 AsciiConverterConfig.default (by decide) (by decide) (by decide)
    (by decide)).2 1 2 (by decide)
  exact ⟨h.1, h.2.1, h.2.2.2.1 0 0 (by decide) (by decide)⟩

/-! ## Claim C7: monotonicity of the brightness-to-glyph mapping -/

theorem Frac.add_half_mono {a b : Frac} (h : Frac.le a b) :
    Frac.le (a.add ⟨1, 2⟩) (b.add ⟨1, 2⟩) := by
  rw [Frac.le_def] at h ⊢
  simp only [Frac.add, Frac.num_mk, Frac.den_mk]
  nlinarith

theorem Frac.mul_ofNat_mono {a b : Frac} (h : Frac.le a b) (k : ℕ) :
    Frac.le (a.mul (Frac.ofNat k)) (b.mul (Frac.ofNat k)) := by
  rw [Frac.le_def] at h ⊢
  simp only [Frac.mul, Frac.ofNat, Frac.num_mk, Frac.den_mk]
  have hk : (0 : ℤ) ≤ (k : ℤ) := Int.natCast_nonneg k
  nlinarith

theorem Frac.le_zero_iff_num (f : Frac) : Frac.le ⟨0, 1⟩ f ↔ 0 ≤ f.num := by
  rw [Frac.le_def]
  simp

theorem Frac.floorZ_int (z : ℤ) : Frac.floorZ ⟨z, 1⟩ = z := Int.ediv_one z

/-- Monotonicity of `calculate_char_index` in the brightness argument,
for nonnegative brightnesses with positive denominators. -/
theorem charIndex_mono {x y : Frac} (hx : 0 < x.den) (hy : 0 < y.den)
    (hx0 : 0 ≤ x.num) (hy0 : 0 ≤ y.num) (hxy : Frac.le x y) (len : ℕ) :
    calculate_char_index x len ≤ calculate_char_index y len := by
  unfold calculate_char_index
  split_ifs
  · exact le_rfl
  · refine min_le_min ?_ le_rfl
    unfold f32ToUsize
    refine min_le_min ?_ le_rfl
    refine Int.toNat_le_toNat ?_
    rw [Frac.floorZ_int, Frac.floorZ_int]
    have hmx : Frac.le ⟨0, 1⟩ (x.mul (Frac.ofNat (len - 1))) := by
      rw [Frac.le_zero_iff_num]
      simp only [Frac.mul, Frac.ofNat, Frac.num_mk]
      positivity
    have hmy : Frac.le ⟨0, 1⟩ (y.mul (Frac.ofNat (len - 1))) := by
      rw [Frac.le_zero_iff_num]
      simp only [Frac.mul, Frac.ofNat, Frac.num_mk]
      positivity
    unfold Frac.roundZ
    rw [if_pos hmx, if_pos hmy]
    refine Frac.floorZ_mono ?_ ?_ ?_
    · simp only [Frac.add, Frac.mul, Frac.ofNat, Frac.den_mk]
      positivity
    · simp only [Frac.add, Frac.mul, Frac.ofNat, Frac.den_mk]
      positivity
    · exact Frac.add_half_mono (Frac.mul_ofNat_mono hxy (len - 1))

theorem Frac.sub_one_antitone {a b : Frac} (h : Frac.le a b) :
    Frac.le (Frac.sub ⟨1, 1⟩ b) (Frac.sub ⟨1, 1⟩ a) := by
  rw [Frac.le_def] at h ⊢
  simp only [Frac.sub, Frac.num_mk, Frac.den_mk]
  nlinarith

theorem brightness_den (r g b : ℕ) : (calculate_brightness r g b).den = 255000000000 := rfl

theorem brightness_num_nonneg (r g b : ℕ) : 0 ≤ (calculate_brightness r g b).num := by
  simp only [calculate_brightness, Frac.div, Frac.add, Frac.mul, Frac.ofNat, Frac.num_mk,
    Frac.den_mk]
  have hs : Int.sign ((255 : ℕ) : ℤ) = 1 := rfl
  rw [hs]
  positivity

theorem brightness_num_le_den (r g b : ℕ) (hr : r ≤ 255) (hg : g ≤ 255) (hb : b ≤ 255) :
    (calculate_brightness r g b).num ≤ (calculate_brightness r g b).den := by
  simp only [calculate_brightness, Frac.div, Frac.add, Frac.mul, Frac.ofNat, Frac.num_mk,
    Frac.den_mk]
  have hs : Int.sign ((255 : ℕ) : ℤ) = 1 := rfl
  rw [hs]
  have hr' : ((r : ℤ)) ≤ 255 := by exact_mod_cast hr
  have hg' : ((g : ℤ)) ≤ 255 := by exact_mod_cast hg
  have hb' : ((b : ℤ)) ≤ 255 := by exact_mod_cast hb
  have : ((255 : ℕ) : ℤ) = 255 := rfl
  rw [this]
  ring_nf
  nlinarith

/-- C7: the brightness-to-ramp-index mapping is monotonic.  If the raw
brightness of one opaque pixel is at most that of another, then with
`invert = false` the chosen ramp index respects that order, and with
`invert = true` (which maps brightness `b` to `1 - b`, converter.rs line
131) the order of chosen indices is reversed. -/
theorem claim_C7 (r1 g1 b1 r2 g2 b2 len : ℕ)
    (hr1 : r1 ≤ 255) (hg1 : g1 ≤ 255) (hb1 : b1 ≤ 255)
    (hr2 : r2 ≤ 255) (hg2 : g2 ≤ 255) (hb2 : b2 ≤ 255)
    (hmono : Frac.le (calculate_brightness r1 g1 b1) (calculate_brightness r2 g2 b2)) :
    calculate_char_index (calculate_brightness r1 g1 b1) len ≤
      calculate_char_index (calculate_brightness r2 g2 b2) len ∧
    calculate_char_index (Frac.sub ⟨1, 1⟩ (calculate_brightness r2 g2 b2)) len ≤
      calculate_char_index (Frac.sub ⟨1, 1⟩ (calculate_brightness r1 g1 b1)) len := by
  have hd1 : 0 < (calculate_brightness r1 g1 b1).den := by rw [brightness_den]; norm_num
  have hd2 : 0 < (calculate_brightness r2 g2 b2).den := by rw [brightness_den]; norm_num
  have hn1 : 0 ≤ (calculate_brightness r1 g1 b1).num := brightness_num_nonneg r1 g1 b1
  have hn2 : 0 ≤ (calculate_brightness r2 g2 b2).num := brightness_num_nonneg r2 g2 b2
  constructor
  · exact charIndex_mono hd1 hd2 hn1 hn2 hmono len
  · refine charIndex_mono ?_ ?_ ?_ ?_ (Frac.sub_one_antitone hmono) len
    · simp only [Frac.sub, Frac.den_mk]
      nlinarith
    · simp only [Frac.sub, Frac.den_mk]
      nlinarith
    · simp only [Frac.sub, Frac.num_mk, Frac.den_mk]
      have := brightness_num_le_den r2 g2 b2 hr2 hg2 hb2
      nlinarith
    · simp only [Frac.sub, Frac.num_mk, Frac.den_mk]
      have := brightness_num_le_den r1 g1 b1 hr1 hg1 hb1
      nlinarith

/-- Witness for C7 at black versus white pixels with the simple ramp length. -/
theorem claim_C7_witness :
    calculate_char_index (calculate_brightness 0 0 0) 10 ≤
      calculate_char_index (calculate_brightness 255 255 255) 10 ∧
    calculate_char_index (Frac.sub ⟨1, 1⟩ (calculate_brightness 255 255 255)) 10 ≤
      calculate_char_index (Frac.sub ⟨1, 1⟩ (calculate_brightness 0 0 0)) 10 :=
  claim_C7 0 0 0 255 255 255 10 (by decide) (by decide) (by decide) (by decide) (by decide)
    (by decide) (by decide)

/-! ## Claim C6: decoded-frame delay normalization -/

/-- C6 counterexample: a source container delay of 32768 centiseconds is
nonzero, so it takes the `delay * 10` path, and the `u16` product
`327680` wraps to `0` — the normalized delay is 0 ms, not at least 1 ms
as the claim states. -/
theorem claim_C6_counterexample :
    decode_gif_delay_ms 32768 = 0 ∧ ¬1 ≤ decode_gif_delay_ms 32768 := by
  refine ⟨by decide, by decide⟩

/-- C6 amended: a source delay of 0 becomes the 100 ms default; a
nonzero source delay `d` becomes `d * 10` in wrapping `u16` arithmetic,
which is at least 1 ms for every `u16` delay except `d = 32768`, where
the product wraps to 0. -/
theorem claim_C6 (d : ℕ) (hd : d < 65536) :
    (d = 0 → decode_gif_delay_ms d = 100) ∧
    (d ≠ 0 → decode_gif_delay_ms d = d * 10 % 65536) ∧
    (d ≠ 32768 → 1 ≤ decode_gif_delay_ms d) := by
  unfold decode_gif_delay_ms
  refine ⟨fun h => by rw [if_pos h], fun h => by rw [if_neg h], fun h => ?_⟩
  by_cases h0 : d = 0
  · rw [if_pos h0]
    omega
  · rw [if_neg h0]
    omega

/-- Witness for C6 at concrete delays 7 (nonzero) and 0 (default). -/
theorem claim_C6_witness : 1 ≤ decode_gif_delay_ms 7 ∧ decode_gif_delay_ms 0 = 100 :=
  ⟨(claim_C6 7 (by decide)).2.2 (by decide), (claim_C6 0 (by decide)).1 rfl⟩

/-! ## Claim C2: empty frame-delay list -/

/-- C2 counterexample: with a non-empty frame sequence and
`frame_delays = []`, both the playback validation and the GIF encoder
input guard return an error instead of falling back to the 100 ms
default. -/
theorem claim_C2_counterexample :
    validate_animation_input [[[' ']]] [] = .error (.Animation "No frame delays provided") ∧
    ascii_frames_to_gif_guard [[[' ']]] [] = .error (.Config "No frame delays provided") :=
  ⟨rfl, rfl⟩

/-- C2 amended: for every non-empty frame sequence with an empty
`frame_delays` list, both `ascii_frames_to_gif_with_dimensions` (via its
input guard) and `display_ascii_animation` (via
`validate_animation_input`) fail with a "No frame delays provided"
error; the 100 ms default applies only to per-frame fallback inside the
loops (a zero delay in playback, and an out-of-range index falling back
to the first entry). -/
theorem claim_C2 (frames : List (List (List Char))) (h : frames ≠ []) :
    validate_animation_input frames [] = .error (.Animation "No frame delays provided") ∧
    ascii_frames_to_gif_guard frames [] = .error (.Config "No frame delays provided") ∧
    (∀ idx delays, delays ≠ [] → ¬idx < delays.length →
      gif_frame_delay delays idx = delays.getD 0 0) ∧
    (∀ idx delays, delays ≠ [] → ¬idx < delays.length → delays.getD 0 0 = 0 →
      display_frame_delay delays idx = 100) := by
  refine ⟨?_, ?_, ?_, ?_⟩
  · unfold validate_animation_input
    rw [if_neg h, if_pos rfl]
  · unfold ascii_frames_to_gif_guard
    rw [if_neg h, if_pos rfl]
  · intro idx delays hne hlt
    unfold gif_frame_delay
    rw [if_neg hlt, if_pos hne]
  · intro idx delays hne hlt hz
    unfold display_frame_delay
    rw [if_neg hlt, if_pos hne, if_pos hz]

/-- Witness for C2 at a concrete one-frame input. -/
theorem claim_C2_witness :
    validate_animation_input [[['a']]] [] = .error (.Animation "No frame delays provided") ∧
    ascii_frames_to_gif_guard [[['a']]] [] = .error (.Config "No frame delays provided") :=
  ⟨(claim_C2 [[['a']]] (by decide)).1, (claim_C2 [[['a']]] (by decide)).2.1⟩

/-! ## Claim C9: update_dimensions is a guarded cache clear -/

/-- C9: updating with the current dimensions is a no-op returning
`false` (state, including the frame cache, unchanged); updating with
different dimensions replaces `current_dimensions`, clears the cache and
returns `true`; hence of two identical consecutive updates the second is
always a no-op returning `false`, and a subsequent `get_frames` behaves
exactly as after the first update alone (at most one regeneration). -/
theorem claim_C9 (m : ResponsiveFrameManager) (d : TerminalDimensions) :
    (d = m.current_dimensions → update_dimensions m d = (false, m)) ∧
    (d ≠ m.current_dimensions →
      update_dimensions m d = (true, { m with current_dimensions := d, cached_frames := none })) ∧
    update_dimensions (update_dimensions m d).2 d = (false, (update_dimensions m d).2) ∧
    get_frames (update_dimensions (update_dimensions m d).2 d).2 =
      get_frames (update_dimensions m d).2 := by
  have h3 : update_dimensions (update_dimensions m d).2 d = (false, (update_dimensions m d).2) := by
    by_cases h : d = m.current_dimensions
    · have h1 : update_dimensions m d = (false, m) := by
        unfold update_dimensions
        rw [if_neg (by simp [h])]
      rw [h1]
      exact h1
    · have h1 : update_dimensions m d =
          (true, { m with current_dimensions := d, cached_frames := none }) := by
        unfold update_dimensions
        rw [if_pos h]
      rw [h1]
      unfold update_dimensions
      rw [if_neg (by simp)]
  refine ⟨?_, ?_, h3, by rw [h3]⟩
  · intro h
    unfold update_dimensions
    rw [if_neg (by simp [h])]
  · intro h
    unfold update_dimensions
    rw [if_pos h]

/-- Witness for C9 at a concrete manager and a genuinely different
dimension value. -/
theorem claim_C9_witness :
    update_dimensions mgrC9 dimsC9 =
      (true, { mgrC9 with current_dimensions := dimsC9, cached_frames := none }) ∧
    update_dimensions (update_dimensions mgrC9 dimsC9).2 dimsC9 =
      (false, (update_dimensions mgrC9 dimsC9).2) ∧
    get_frames (update_dimensions (update_dimensions mgrC9 dimsC9).2 dimsC9).2 =
      get_frames (update_dimensions mgrC9 dimsC9).2 :=
  ⟨(claim_C9 mgrC9 dimsC9).2.1 (by decide), (claim_C9 mgrC9 dimsC9).2.2.1,
    (claim_C9 mgrC9 dimsC9).2.2.2⟩

/-! ## Claim C4: the colored round-trip leaks the reset sequence -/

/-- C4: for the 1 by 1 opaque red image, the rasterizer emits the single
row `"\x1b[38;2;255;0;0m \x1b[0m"`.  `calculate_line_character_count`
(which sizes the render canvas and strips the trailing `"\x1b[0m"`)
counts exactly 1 character for that row, but
`parse_line_to_colored_characters` returns 4 colored characters: the
glyph plus `'['`, `'0'`, `'m'` leaked from the trailing reset sequence,
because the post-match remainder only filters `\x1b` and NUL bytes.  So
the round-trip does not yield exactly one `ColoredCharacter` per output
column, contradicting the claim and the sibling width computation. -/
theorem claim_C4_bug :
    image_to_colored_ascii redImg1 cfgC4 = .ok [lineC4] ∧
    calculate_line_character_count lineC4 = 1 ∧
    parse_line_to_colored_characters lineC4 ⟨255, 255, 255⟩ =
      [⟨' ', ⟨255, 0, 0⟩⟩, ⟨'[', ⟨255, 0, 0⟩⟩, ⟨'0', ⟨255, 0, 0⟩⟩, ⟨'m', ⟨255, 0, 0⟩⟩] ∧
    (parse_line_to_colored_characters lineC4 ⟨255, 255, 255⟩).length ≠ 1 :=
  ⟨by decide, by decide, by decide, by decide⟩

/-! ## Claim C8: palette shape -/

theorem padList_length (b0 b1 b2 k : ℕ) : (padList b0 b1 b2 k).length = 3 * k := by
  induction k with
  | zero => rfl
  | succ k ih =>
    simp only [padList, List.length_cons, ih]
    ring

theorem padPalette_spec (b0 b1 b2 : ℕ) :
    ∀ (k fuel : ℕ) (p : List ℕ), p.length + 3 * k = 768 → k ≤ fuel →
      padPalette fuel p b0 b1 b2 = p ++ padList b0 b1 b2 k := by
  intro k
  induction k with
  | zero =>
    intro fuel p hlen _
    cases fuel with
    | zero => simp [padPalette, padList]
    | succ f =>
      show (if p.length < 768 then padPalette f (p ++ [b0, b1, b2]) b0 b1 b2 else p) = _
      rw [if_neg (by omega)]
      simp [padList]
  | succ k ih =>
    intro fuel p hlen hf
    cases fuel with
    | zero => omega
    | succ f =>
      show (if p.length < 768 then padPalette f (p ++ [b0, b1, b2]) b0 b1 b2 else p) = _
      rw [if_pos (by omega), ih f (p ++ [b0, b1, b2]) (by simp; omega) (by omega)]
      simp [padList]

theorem padList_getD (b0 b1 b2 : ℕ) :
    ∀ m k, m < k →
      (padList b0 b1 b2 k).getD (3 * m) 0 = b0 ∧
      (padList b0 b1 b2 k).getD (3 * m + 1) 0 = b1 ∧
      (padList b0 b1 b2 k).getD (3 * m + 2) 0 = b2 := by
  intro m
  induction m with
  | zero =>
    intro k hk
    cases k with
    | zero => omega
    | succ k => simp [padList]
  | succ m ih =>
    intro k hk
    cases k with
    | zero => omega
    | succ k =>
      obtain ⟨i1, i2, i3⟩ := ih k (by omega)
      refine ⟨?_, ?_, ?_⟩
      · have h3 : 3 * (m + 1) = 3 * m + 1 + 1 + 1 := by ring
        rw [h3]
        simpa [padList] using i1
      · have h3 : 3 * (m + 1) + 1 = (3 * m + 1) + 1 + 1 + 1 := by ring
        rw [h3]
        simpa [padList] using i2
      · have h3 : 3 * (m + 1) + 2 = (3 * m + 2) + 1 + 1 + 1 := by ring
        rw [h3]
        simpa [padList] using i3

theorem flatMap_length_three {α : Type} (f : α → List ℕ) (hf : ∀ a, (f a).length = 3)
    (l : List α) : (l.flatMap f).length = 3 * l.length := by
  induction l with
  | nil => simp
  | cons a t ih =>
    show (f a ++ t.flatMap f).length = _
    simp only [List.length_append, List.length_cons, hf, ih]
    ring

theorem optimized_base_length (bg text : Rgb) :
    ([bg.r, bg.g, bg.b] ++ [text.r, text.g, text.b] ++
      (List.range 31).flatMap (fun j => gradientEntry bg text (j + 1))).length = 99 := by
  rw [List.length_append, List.length_append,
    flatMap_length_three (fun j => gradientEntry bg text (j + 1)) (fun a => rfl)
      (List.range 31)]
  simp

theorem create_optimized_palette_eq (bg text : Rgb) :
    create_optimized_palette bg text =
      ([bg.r, bg.g, bg.b] ++ [text.r, text.g, text.b] ++
        (List.range 31).flatMap (fun j => gradientEntry bg text (j + 1))) ++
        padList bg.r bg.g bg.b 223 := by
  show List.take 768 (padPalette 768 ([bg.r, bg.g, bg.b] ++ [text.r, text.g, text.b] ++
    (List.range 31).flatMap (fun j => gradientEntry bg text (j + 1))) bg.r bg.g bg.b) = _
  rw [padPalette_spec bg.r bg.g bg.b 223 768 _ (by rw [optimized_base_length]) (by omega)]
  rw [List.take_of_length_le (by rw [List.length_append, optimized_base_length, padList_length])]

set_option maxRecDepth 40000 in
theorem enhanced_base_length (bg : Rgb) :
    ([bg.r, bg.g, bg.b] ++ primaryColors.flatten ++ hsvSweep ++ grayRamp).length = 627 := by
  have h1 : primaryColors.flatten.length = 72 := by decide
  have h2 : hsvSweep.length = 360 := by decide
  have h3 : grayRamp.length = 192 := by decide
  simp [List.length_append, h1, h2, h3]

theorem create_enhanced_color_palette_eq (bg : Rgb) :
    create_enhanced_color_palette bg =
      ([bg.r, bg.g, bg.b] ++ primaryColors.flatten ++ hsvSweep ++ grayRamp) ++
        padList bg.r bg.g bg.b 47 := by
  show List.take 768 (padPalette 768 ([bg.r, bg.g, bg.b] ++ primaryColors.flatten ++ hsvSweep ++
    grayRamp) bg.r bg.g bg.b) = _
  rw [padPalette_spec bg.r bg.g bg.b 47 768 _ (by rw [enhanced_base_length]) (by omega)]
  rw [List.take_of_length_le (by rw [List.length_append, enhanced_base_length, padList_length])]

/-- C8: both palette constructors return exactly 256 RGB entries (768
bytes); entry 0 is the background color; the monochrome palette's entry
1 is the text color; and every slot after the defined colors (from slot
33 in the monochrome palette and slot 209 in the colored one) repeats
the background color. -/
theorem claim_C8 (bg text : Rgb) :
    (create_optimized_palette bg text).length = 768 ∧
    tripleAt (create_optimized_palette bg text) 0 = (bg.r, bg.g, bg.b) ∧
    tripleAt (create_optimized_palette bg text) 1 = (text.r, text.g, text.b) ∧
    (∀ i, 33 ≤ i → i < 256 →
      tripleAt (create_optimized_palette bg text) i = (bg.r, bg.g, bg.b)) ∧
    (create_enhanced_color_palette bg).length = 768 ∧
    tripleAt (create_enhanced_color_palette bg) 0 = (bg.r, bg.g, bg.b) ∧
    (∀ i, 209 ≤ i → i < 256 →
      tripleAt (create_enhanced_color_palette bg) i = (bg.r, bg.g, bg.b)) := by
  have hpadO : ∀ i, 33 ≤ i → i < 256 →
      tripleAt (create_optimized_palette bg text) i = (bg.r, bg.g, bg.b) := by
    intro i h33 h256
    unfold tripleAt
    rw [create_optimized_palette_eq]
    have hb := optimized_base_length bg text
    obtain ⟨p0, p1, p2⟩ := padList_getD bg.r bg.g bg.b (i - 33) 223 (by omega)
    rw [List.getD_append_right _ _ _ _ (by omega), List.getD_append_right _ _ _ _ (by omega),
      List.getD_append_right _ _ _ _ (by omega), hb]
    have e0 : 3 * i - 99 = 3 * (i - 33) := by omega
    have e1 : 3 * i + 1 - 99 = 3 * (i - 33) + 1 := by omega
    have e2 : 3 * i + 2 - 99 = 3 * (i - 33) + 2 := by omega
    rw [e0, e1, e2, p0, p1, p2]
  have hpadE : ∀ i, 209 ≤ i → i < 256 →
      tripleAt (create_enhanced_color_palette bg) i = (bg.r, bg.g, bg.b) := by
    intro i h209 h256
    unfold tripleAt
    rw [create_enhanced_color_palette_eq]
    have hb := enhanced_base_length bg
    obtain ⟨p0, p1, p2⟩ := padList_getD bg.r bg.g bg.b (i - 209) 47 (by omega)
    rw [List.getD_append_right _ _ _ _ (by omega), List.getD_append_right _ _ _ _ (by omega),
      List.getD_append_right _ _ _ _ (by omega), hb]
    have e0 : 3 * i - 627 = 3 * (i - 209) := by omega
    have e1 : 3 * i + 1 - 627 = 3 * (i - 209) + 1 := by omega
    have e2 : 3 * i + 2 - 627 = 3 * (i - 209) + 2 := by omega
    rw [e0, e1, e2, p0, p1, p2]
  refine ⟨?_, ?_, ?_, hpadO, ?_, ?_, hpadE⟩
  · rw [create_optimized_palette_eq, List.length_append, optimized_base_length, padList_length]
  · rw [create_optimized_palette_eq]
    simp [tripleAt]
  · rw [create_optimized_palette_eq]
    simp [tripleAt]
  · rw [create_enhanced_color_palette_eq, List.length_append, enhanced_base_length,
      padList_length]
  · rw [create_enhanced_color_palette_eq]
    simp [tripleAt]

/-- Witness for C8 at concrete background and text colors, exercising a
padding slot of each palette. -/
theorem claim_C8_witness :
    (create_optimized_palette ⟨1, 2, 3⟩ ⟨251, 252, 253⟩).length = 768 ∧
    tripleAt (create_optimized_palette ⟨1, 2, 3⟩ ⟨251, 252, 253⟩) 0 = (1, 2, 3) ∧
    tripleAt (create_optimized_palette ⟨1, 2, 3⟩ ⟨251, 252, 253⟩) 1 = (251, 252, 253) ∧
    tripleAt (create_optimized_palette ⟨1, 2, 3⟩ ⟨251, 252, 253⟩) 40 = (1, 2, 3) ∧
    (create_enhanced_color_palette ⟨1, 2, 3⟩).length = 768 ∧
    tripleAt (create_enhanced_color_palette ⟨1, 2, 3⟩) 0 = (1, 2, 3) ∧
    tripleAt (create_enhanced_color_palette ⟨1, 2, 3⟩) 250 = (1, 2, 3) := by
  have h := claim_C8 ⟨1, 2, 3⟩ ⟨251, 252, 253⟩
  exact ⟨h.1, h.2.1, h.2.2.1, h.2.2.2.1 40 (by decide) (by decide), h.2.2.2.2.1,
    h.2.2.2.2.2.1, h.2.2.2.2.2.2 250 (by decide) (by decide)⟩

/-! ## Claim C3: the quantizer -/

theorem guard_of_lt_third {p : List ℕ} {i : ℕ} (h : i < p.length / 3) : 3 * i + 2 < p.length := by
  omega

theorem colorDist_pos {a t : ℕ × ℕ × ℕ} (h : t ≠ a) : 0 < colorDist a t := by
  obtain ⟨a1, a2, a3⟩ := a
  obtain ⟨t1, t2, t3⟩ := t
  unfold colorDist
  dsimp only
  by_contra hc
  push_neg at hc
  have hc0 : (((a1 : ℤ) - t1) ^ 2 + ((a2 : ℤ) - t2) ^ 2 + ((a3 : ℤ) - t3) ^ 2).toNat = 0 := by
    omega
  have h1 : (0 : ℤ) ≤ ((a1 : ℤ) - t1) ^ 2 := sq_nonneg _
  have h2 : (0 : ℤ) ≤ ((a2 : ℤ) - t2) ^ 2 := sq_nonneg _
  have h3 : (0 : ℤ) ≤ ((a3 : ℤ) - t3) ^ 2 := sq_nonneg _
  have hsum : ((a1 : ℤ) - t1) ^ 2 + ((a2 : ℤ) - t2) ^ 2 + ((a3 : ℤ) - t3) ^ 2 = 0 := by
    rw [Int.toNat_eq_zero] at hc0
    omega
  have e1 : ((a1 : ℤ) - t1) ^ 2 = 0 := by nlinarith
  have e2 : ((a2 : ℤ) - t2) ^ 2 = 0 := by nlinarith
  have e3 : ((a3 : ℤ) - t3) ^ 2 = 0 := by nlinarith
  have f1 : a1 = t1 := by
    have := sq_eq_zero_iff.mp e1
    omega
  have f2 : a2 = t2 := by
    have := sq_eq_zero_iff.mp e2
    omega
  have f3 : a3 = t3 := by
    have := sq_eq_zero_iff.mp e3
    omega
  exact h (by simp [f1, f2, f3])

theorem colorDist_lt_init {a t : ℕ × ℕ × ℕ}
    (ha1 : a.1 ≤ 255) (ha2 : a.2.1 ≤ 255) (ha3 : a.2.2 ≤ 255)
    (ht1 : t.1 ≤ 255) (ht2 : t.2.1 ≤ 255) (ht3 : t.2.2 ≤ 255) :
    colorDist a t < 2 ^ 32 - 1 := by
  obtain ⟨a1, a2, a3⟩ := a
  obtain ⟨t1, t2, t3⟩ := t
  simp only at ha1 ha2 ha3 ht1 ht2 ht3
  unfold colorDist
  dsimp only
  have b1 : ((a1 : ℤ) - t1) ^ 2 ≤ 65025 := by
    have c1 : (a1 : ℤ) ≤ 255 := by exact_mod_cast ha1
    have c2 : (t1 : ℤ) ≤ 255 := by exact_mod_cast ht1
    have c3 : (0 : ℤ) ≤ a1 := Int.natCast_nonneg a1
    have c4 : (0 : ℤ) ≤ t1 := Int.natCast_nonneg t1
    nlinarith
  have b2 : ((a2 : ℤ) - t2) ^ 2 ≤ 65025 := by
    have c1 : (a2 : ℤ) ≤ 255 := by exact_mod_cast ha2
    have c2 : (t2 : ℤ) ≤ 255 := by exact_mod_cast ht2
    have c3 : (0 : ℤ) ≤ a2 := Int.natCast_nonneg a2
    have c4 : (0 : ℤ) ≤ t2 := Int.natCast_nonneg t2
    nlinarith
  have b3 : ((a3 : ℤ) - t3) ^ 2 ≤ 65025 := by
    have c1 : (a3 : ℤ) ≤ 255 := by exact_mod_cast ha3
    have c2 : (t3 : ℤ) ≤ 255 := by exact_mod_cast ht3
    have c3 : (0 : ℤ) ≤ a3 := Int.natCast_nonneg a3
    have c4 : (0 : ℤ) ≤ t3 := Int.natCast_nonneg t3
    nlinarith
  have h1 : (0 : ℤ) ≤ ((a1 : ℤ) - t1) ^ 2 := sq_nonneg _
  have h2 : (0 : ℤ) ≤ ((a2 : ℤ) - t2) ^ 2 := sq_nonneg _
  have h3 : (0 : ℤ) ≤ ((a3 : ℤ) - t3) ^ 2 := sq_nonneg _
  omega

theorem tripleAt_bounds {p : List ℕ} (hbytes : ∀ x ∈ p, x ≤ 255) {i : ℕ}
    (h : 3 * i + 2 < p.length) :
    (tripleAt p i).1 ≤ 255 ∧ (tripleAt p i).2.1 ≤ 255 ∧ (tripleAt p i).2.2 ≤ 255 := by
  have hmem : ∀ n, n < p.length → p.getD n 0 ∈ p := by
    intro n hn
    rw [List.getD_eq_getElem _ _ hn]
    exact List.getElem_mem _
  exact ⟨hbytes _ (hmem _ (by omega)), hbytes _ (hmem _ (by omega)),
    hbytes _ (hmem _ (by omega))⟩

theorem cacheStep_apply (p : List ℕ) (cache : (ℕ × ℕ × ℕ) → Option ℕ) (i : ℕ) (k : ℕ × ℕ × ℕ) :
    cacheStep p cache i k =
      if 3 * i + 2 < p.length then
        if k = tripleAt p i then some (i % 256) else cache k
      else cache k := by
  unfold cacheStep
  split <;> rfl

theorem cacheFold_skip (p : List ℕ) (k : ℕ × ℕ × ℕ) :
    ∀ (n : ℕ) (c0 : (ℕ × ℕ × ℕ) → Option ℕ), (∀ i, i < n → tripleAt p i ≠ k) →
      ((List.range n).foldl (cacheStep p) c0) k = c0 k := by
  intro n
  induction n with
  | zero => intro c0 _; rfl
  | succ n ih =>
    intro c0 h
    rw [List.range_succ, List.foldl_append]
    show cacheStep p ((List.range n).foldl (cacheStep p) c0) n k = c0 k
    rw [cacheStep_apply]
    have hprev := ih c0 (fun i hi => h i (by omega))
    split
    · rw [if_neg (fun he => h n (by omega) he.symm), hprev]
    · exact hprev

theorem cacheFold_hit (p : List ℕ) (k : ℕ × ℕ × ℕ) :
    ∀ (n : ℕ) (c0 : (ℕ × ℕ × ℕ) → Option ℕ) (j : ℕ), j < n → 3 * j + 2 < p.length →
      tripleAt p j = k → (∀ i, j < i → i < n → tripleAt p i ≠ k) →
      ((List.range n).foldl (cacheStep p) c0) k = some (j % 256) := by
  intro n
  induction n with
  | zero => intro c0 j hj _ _ _; omega
  | succ n ih =>
    intro c0 j hj hg ht h
    rw [List.range_succ, List.foldl_append]
    show cacheStep p ((List.range n).foldl (cacheStep p) c0) n k = _
    rw [cacheStep_apply]
    by_cases hjn : j = n
    · subst hjn
      rw [if_pos hg, if_pos ht.symm]
    · have hjn' : j < n := by omega
      have hprev := ih c0 j hjn' hg ht (fun i h1 h2 => h i h1 (by omega))
      split
      · rw [if_neg (fun he => h n (by omega) (by omega) he.symm), hprev]
      · exact hprev

/-- Invariant of the `find_closest_color` scan: either nothing in the
remaining index list beats the carried minimum (the carried best index
is returned), or the result is the first index attaining a strict
improvement that nothing afterwards strictly beats. -/
theorem findScan_spec (rgb : ℕ × ℕ × ℕ) (p : List ℕ) :
    ∀ (js : List ℕ) (minD best : ℕ),
      (∀ i ∈ js, 3 * i + 2 < p.length) →
      (∀ i ∈ js, 0 < colorDist rgb (tripleAt p i)) →
      (findScan rgb p js minD best = best ∧
        ∀ i ∈ js, minD ≤ colorDist rgb (tripleAt p i)) ∨
      (∃ jsa j jsb, js = jsa ++ j :: jsb ∧
        findScan rgb p js minD best = j % 256 ∧
        colorDist rgb (tripleAt p j) < minD ∧
        (∀ i ∈ jsa, colorDist rgb (tripleAt p j) < colorDist rgb (tripleAt p i)) ∧
        (∀ i ∈ jsb, colorDist rgb (tripleAt p j) ≤ colorDist rgb (tripleAt p i))) := by
  intro js
  induction js with
  | nil =>
    intro minD best _ _
    left
    exact ⟨rfl, by simp⟩
  | cons i is ih =>
    intro minD best hg hd
    have hgi : 3 * i + 2 < p.length := hg i (by simp)
    have hdi : 0 < colorDist rgb (tripleAt p i) := hd i (by simp)
    have hg' : ∀ a ∈ is, 3 * a + 2 < p.length := fun a ha => hg a (by simp [ha])
    have hd' : ∀ a ∈ is, 0 < colorDist rgb (tripleAt p a) := fun a ha => hd a (by simp [ha])
    by_cases hlt : colorDist rgb (tripleAt p i) < minD
    · have hstep : findScan rgb p (i :: is) minD best =
          findScan rgb p is (colorDist rgb (tripleAt p i)) (i % 256) := by
        show (if 3 * i + 2 < p.length then _ else _) = _
        rw [if_pos hgi, if_pos hlt, if_neg (by omega)]
      rcases ih (colorDist rgb (tripleAt p i)) (i % 256) hg' hd' with ⟨heq, hall⟩ | hright
      · right
        exact ⟨[], i, is, rfl, by rw [hstep, heq], hlt, by simp, hall⟩
      · obtain ⟨jsa, j, jsb, hsplit, hres, hjlt, hja, hjb⟩ := hright
        right
        refine ⟨i :: jsa, j, jsb, by simp [hsplit], by rw [hstep, hres], by omega, ?_, hjb⟩
        intro a ha
        rcases List.mem_cons.mp ha with rfl | ha'
        · omega
        · exact hja a ha'
    · have hstep : findScan rgb p (i :: is) minD best = findScan rgb p is minD best := by
        show (if 3 * i + 2 < p.length then _ else _) = _
        rw [if_pos hgi, if_neg hlt]
      rcases ih minD best hg' hd' with ⟨heq, hall⟩ | hright
      · left
        refine ⟨by rw [hstep, heq], ?_⟩
        intro a ha
        rcases List.mem_cons.mp ha with rfl | ha'
        · omega
        · exact hall a ha'
      · obtain ⟨jsa, j, jsb, hsplit, hres, hjlt, hja, hjb⟩ := hright
        right
        refine ⟨i :: jsa, j, jsb, by simp [hsplit], by rw [hstep, hres], hjlt, ?_, hjb⟩
        intro a ha
        rcases List.mem_cons.mp ha with rfl | ha'
        · omega
        · exact hja a ha'

/-- A decidable predicate holding below `n` has a greatest witness below
`n`. -/
theorem exists_greatest (P : ℕ → Prop) [DecidablePred P] {i0 n : ℕ} (hi0 : i0 < n)
    (hP : P i0) : ∃ j, j < n ∧ P j ∧ ∀ i, i < n → P i → i ≤ j := by
  have hle : i0 ≤ n - 1 := by omega
  have h1 : Nat.findGreatest P (n - 1) ≤ n - 1 := Nat.findGreatest_le _
  have h2 : P (Nat.findGreatest P (n - 1)) := Nat.findGreatest_spec hle hP
  refine ⟨Nat.findGreatest P (n - 1), by omega, h2, ?_⟩
  intro i hi hPi
  by_contra hgt
  push_neg at hgt
  exact Nat.findGreatest_is_greatest hgt (by omega) hPi

/-- Decomposing `List.range n` around a distinguished element. -/
theorem range_decomp {n : ℕ} {jsa : List ℕ} {j : ℕ} {jsb : List ℕ}
    (h : List.range n = jsa ++ j :: jsb) :
    j < n ∧ (∀ i, i ∈ jsa ↔ i < j) ∧ ∀ i ∈ jsb, j < i ∧ i < n := by
  have hj_mem : j ∈ List.range n := by
    rw [h]
    simp
  have hjn : j < n := List.mem_range.mp hj_mem
  have hlen : jsa.length < n := by
    have hl := congrArg List.length h
    simp only [List.length_range, List.length_append, List.length_cons] at hl
    omega
  have hget : jsa.length = j := by
    have h1 : (List.range n)[jsa.length]? = some j := by
      rw [h, List.getElem?_append_right (le_refl jsa.length)]
      simp
    rw [List.getElem?_range hlen] at h1
    exact Option.some_inj.mp h1
  have hjsa : jsa = List.range j := by
    have htake : (List.range n).take jsa.length = jsa := by
      rw [h, List.take_left]
    rw [List.take_range] at htake
    rw [← htake, hget]
    congr 1
    omega
  refine ⟨hjn, ?_, ?_⟩
  · intro i
    rw [hjsa, List.mem_range]
  · intro i hi
    have hin : i ∈ List.range n := by
      rw [h]
      simp [hi]
    have hiltn : i < n := List.mem_range.mp hin
    have hnd : (jsa ++ j :: jsb).Nodup := by
      rw [← h]
      exact List.nodup_range n
    have hinotjsa : i ∉ jsa := by
      intro hia
      have := List.disjoint_of_nodup_append hnd hia (by simp [hi])
      exact this
    have hinej : i ≠ j := by
      intro he
      have hnd2 : (j :: jsb).Nodup := (List.nodup_append.mp hnd).2.1
      have := (List.nodup_cons.mp hnd2).1
      rw [← he] at this
      exact this hi
    have : ¬i < j := by
      intro hlt
      exact hinotjsa ((hjsa ▸ List.mem_range.mpr hlt))
    exact ⟨by omega, hiltn⟩

set_option maxRecDepth 1000000 in
/-- C3 counterexample: in the monochrome palette with black background
and white text, the background triple occupies slot 0 (and every padding
slot), yet the quantizer returns 255 — the highest slot holding that
triple — because each later cache insert overwrites the earlier one.
The claim says the lowest such index (0) is returned. -/
theorem claim_C3_counterexample :
    tripleAt (create_optimized_palette ⟨0, 0, 0⟩ ⟨255, 255, 255⟩) 0 = (0, 0, 0) ∧
    find_closest_color (0, 0, 0) (create_optimized_palette ⟨0, 0, 0⟩ ⟨255, 255, 255⟩)
      (create_color_cache (create_optimized_palette ⟨0, 0, 0⟩ ⟨255, 255, 255⟩)) = 255 := by
  constructor
  · decide
  · decide

/-- C3 amended: for a palette of at most 256 byte-triples, a triple that
occurs verbatim is quantized to the HIGHEST slot holding it (the exact
cache is built with overwriting inserts in slot order), and a triple not
occurring at all is quantized to the lowest slot attaining the minimum
squared Euclidean RGB distance over the whole palette. -/
theorem claim_C3 (p : List ℕ) (k : ℕ × ℕ × ℕ)
    (hlen3 : 3 ≤ p.length) (hlen : p.length ≤ 768)
    (hbytes : ∀ x ∈ p, x ≤ 255) (hk1 : k.1 ≤ 255) (hk21 : k.2.1 ≤ 255) (hk22 : k.2.2 ≤ 255) :
    ((∃ i, i < p.length / 3 ∧ tripleAt p i = k) →
      ∃ j, j < p.length / 3 ∧ find_closest_color k p (create_color_cache p) = j ∧
        tripleAt p j = k ∧ ∀ i, i < p.length / 3 → tripleAt p i = k → i ≤ j) ∧
    ((∀ i, i < p.length / 3 → tripleAt p i ≠ k) →
      ∃ j, j < p.length / 3 ∧ find_closest_color k p (create_color_cache p) = j ∧
        (∀ i, i < p.length / 3 →
          colorDist k (tripleAt p j) ≤ colorDist k (tripleAt p i)) ∧
        ∀ i, i < j → colorDist k (tripleAt p j) < colorDist k (tripleAt p i)) := by
  have hcount1 : 1 ≤ p.length / 3 := by omega
  have hcount256 : p.length / 3 ≤ 256 := by omega
  constructor
  · rintro ⟨i0, hi0, ht0⟩
    obtain ⟨j, hj_lt, hPj, hmax⟩ :=
      exists_greatest (fun i => tripleAt p i = k) hi0 ht0
    have hcache : create_color_cache p k = some (j % 256) := by
      unfold create_color_cache
      exact cacheFold_hit p k (p.length / 3) _ j (by omega) (guard_of_lt_third (by omega)) hPj
        (fun i h1 h2 => fun he => by have := hmax i h2 he; omega)
    refine ⟨j, by omega, ?_, hPj, hmax⟩
    unfold find_closest_color
    rw [hcache]
    exact Nat.mod_eq_of_lt (by omega)
  · intro hnone
    have hcache : create_color_cache p k = none := by
      unfold create_color_cache
      exact cacheFold_skip p k (p.length / 3) _ hnone
    have hscan := findScan_spec k p (List.range (p.length / 3)) (2 ^ 32 - 1) 0
      (fun i hi => guard_of_lt_third (List.mem_range.mp hi))
      (fun i hi => colorDist_pos (hnone i (List.mem_range.mp hi)))
    rcases hscan with ⟨_, hall⟩ | hright
    · exfalso
      have h0 := hall 0 (List.mem_range.mpr (by omega))
      have hb := tripleAt_bounds hbytes (guard_of_lt_third (show 0 < p.length / 3 by omega))
      have := colorDist_lt_init hk1 hk21 hk22 hb.1 hb.2.1 hb.2.2
      omega
    · obtain ⟨jsa, j, jsb, hsplit, hres, _, hja, hjb⟩ := hright
      obtain ⟨hjn, hjsa_iff, hjsb⟩ := range_decomp hsplit
      refine ⟨j, hjn, ?_, ?_, ?_⟩
      · unfold find_closest_color
        rw [hcache]
        rw [hres]
        exact Nat.mod_eq_of_lt (by omega)
      · intro i hi
        rcases Nat.lt_trichotomy i j with hij | hij | hij
        · exact le_of_lt (hja i ((hjsa_iff i).mpr hij))
        · rw [hij]
        · have hmem : i ∈ jsa ++ j :: jsb := by
            rw [← hsplit]
            exact List.mem_range.mpr hi
          rcases List.mem_append.mp hmem with hia | hib
          · have := (hjsa_iff i).mp hia
            omega
          · rcases List.mem_cons.mp hib with rfl | hib'
            · exact le_rfl
            · exact hjb i hib'
      · intro i hij
        exact hja i ((hjsa_iff i).mpr hij)

/-- Witness for C3 at a two-slot palette holding the same triple twice:
the quantizer returns the higher slot, index 1. -/
theorem claim_C3_witness :
    find_closest_color (10, 20, 30) [10, 20, 30, 10, 20, 30]
      (create_color_cache [10, 20, 30, 10, 20, 30]) = 1 ∧
    tripleAt [10, 20, 30, 10, 20, 30] 1 = (10, 20, 30) := by
  obtain ⟨j, hj, heq, htr, hmax⟩ :=
    (claim_C3 [10, 20, 30, 10, 20, 30] (10, 20, 30) (by decide) (by decide) (by decide)
      (by decide) (by decide) (by decide)).1 ⟨0, by decide, by decide⟩
  have hj1 : j = 1 := by
    have h1 := hmax 1 (by decide) (by decide)
    have hlen : ([10, 20, 30, 10, 20, 30] : List ℕ).length / 3 = 2 := rfl
    rw [hlen] at hj
    omega
  rw [hj1] at heq
  exact ⟨heq, by decide⟩

end Monochora
